import Mathlib

/-!
# PySyn — verification of the core synthesis pipeline

Shallow embedding of the PySyn additive synthesiser (`src/pysyn/`):
`time.py` (the `Time` sampling clock), `osc.py` (wave generators, the
process-wide oscillator registry, the `Oscillator` class and
`fourier_transform`), `track.py` (`Track`) and `mixer.py` (`Mixer`).

Python floats are modelled as elements of a linear ordered field `K`
equipped with a floor (instantiated at `ℚ` for executable witnesses and
at `ℝ` for the trigonometric generators).  Raised exceptions are
modelled with `Except`: `NameError` with the two messages that `osc.py`
uses becomes `PyErr.nameErrorDuplicate` / `PyErr.nameErrorUnknown`, and
the `ValueError` that `np.linspace` raises on a negative sample count
becomes `PyErr.valueErrorNegativeSamples`.  Mutation of the module-level
registry dict and of the mixer's dicts is modelled by explicit state
passing; a Python `dict` is an association list (`List (String × _)`)
with insertion at the tail, matching dict insertion order.
-/

/-- Errors raised by the embedded code paths. -/
inductive PyErr : Type where
  /-- `NameError(f'Wave name {name} already exists!')` from `add_oscillator`
      (the spec calls this error kind `DuplicateWaveName`). -/
  | nameErrorDuplicate (name : String) : PyErr
  /-- `NameError(f'Wave {name} does not exist!')` from `Oscillator.__init__`
      (the spec calls this error kind `UnknownWaveName`). -/
  | nameErrorUnknown (name : String) : PyErr
  /-- `ValueError` raised by `np.linspace` when the sample count is negative
      (the spec calls the negative-duration error kind `InvalidDuration`). -/
  | valueErrorNegativeSamples : PyErr
  deriving DecidableEq, Repr

/-- Python's `int(x)` on a float: truncation toward zero. -/
def pyInt {K : Type} [LinearOrderedField K] [FloorRing K] (x : K) : ℤ :=
  if 0 ≤ x then ⌊x⌋ else ⌈x⌉

/-- `np.linspace(start, stop, num, endpoint=False)`: raises `ValueError` when
`num < 0`, otherwise returns `[start + i*(stop-start)/num : i < num]`. -/
def linspaceNoEndpoint {K : Type} [LinearOrderedField K] (start stop : K)
    (num : ℤ) : Except PyErr (List K) :=
  if num < 0 then .error .valueErrorNegativeSamples
  else .ok ((List.range num.toNat).map
    (fun (i : ℕ) => start + (i : K) * ((stop - start) / (num : K))))

/-- `Time._sampling_rate`, the process-wide sampling rate (44100 Hz). -/
def samplingRate : ℕ := 44100

/-- The `Time` class of `time.py`: a `(duration, start)` pair. -/
structure Time (K : Type) where
  duration : K
  start : K
  deriving DecidableEq, Repr

/-- `Time.get_array`:
`np.linspace(start, start + duration, int(rate * duration), endpoint=False)`. -/
def Time.get_array {K : Type} [LinearOrderedField K] [FloorRing K]
    (t : Time K) : Except PyErr (List K) :=
  linspaceNoEndpoint t.start (t.start + t.duration)
    (pyInt ((samplingRate : K) * t.duration))

/-- The sample grid that `np.linspace` returns for a `Time` span with
non-negative duration: `⌊rate*d⌋` points from `s`, spaced `d/⌊rate*d⌋`. -/
def sampleGrid {K : Type} [LinearOrderedField K] [FloorRing K]
    (d s : K) : List K :=
  (List.range (⌊(samplingRate : K) * d⌋).toNat).map
    (fun (i : ℕ) => s + (i : K) * (d / ((⌊(samplingRate : K) * d⌋ : ℤ) : K)))

section TimeLemmas

variable {K : Type} [LinearOrderedField K] [FloorRing K]

lemma pyInt_of_nonneg {x : K} (hx : 0 ≤ x) : pyInt x = ⌊x⌋ := by
  simp [pyInt, hx]

lemma pyInt_of_neg {x : K} (hx : x < 0) : pyInt x = ⌈x⌉ := by
  simp [pyInt, not_le.mpr hx]

/-- On a non-negative duration, `get_array` succeeds and is the evenly
spaced grid of `⌊rate * duration⌋` points spaced `duration / ⌊rate*duration⌋`. -/
lemma Time.get_array_nonneg {d s : K} (hd : 0 ≤ d) :
    (Time.mk d s).get_array = .ok (sampleGrid d s) := by
  have hnn : (0 : K) ≤ (samplingRate : K) * d :=
    mul_nonneg (by positivity) hd
  have hfl : (0 : ℤ) ≤ ⌊(samplingRate : K) * d⌋ := Int.floor_nonneg.mpr hnn
  unfold Time.get_array linspaceNoEndpoint sampleGrid
  rw [pyInt_of_nonneg hnn]
  rw [if_neg (not_lt.mpr hfl)]
  simp

lemma get_range_map {α : Type} (f : ℕ → α) (n i : ℕ)
    (hi : i < ((List.range n).map f).length) :
    ((List.range n).map f).get ⟨i, hi⟩ = f i := by
  have hi' : i < n := by simpa using hi
  simp [List.get_eq_getElem]

end TimeLemmas

/-- **C1.** For every `Time` span with positive duration, `Time.get_array`
succeeds and produces exactly `⌊rate * duration⌋` evenly spaced values, the
first equal to `start`, with spacing `duration / ⌊rate * duration⌋`, every
value strictly below `start + duration` (right endpoint excluded). -/
theorem pysyn_C1_get_array_grid {K : Type} [LinearOrderedField K] [FloorRing K]
    (d s : K) (hd : 0 < d) :
    ∃ l : List K, (Time.mk d s).get_array = .ok l ∧
      (l.length : ℤ) = ⌊(samplingRate : K) * d⌋ ∧
      (∀ i (hi : i < l.length),
        l.get ⟨i, hi⟩ = s + (i : K) * (d / (l.length : K))) ∧
      (∀ h0 : 0 < l.length, l.get ⟨0, h0⟩ = s) ∧
      (∀ i (hi : i + 1 < l.length),
        l.get ⟨i + 1, hi⟩ - l.get ⟨i, Nat.lt_of_succ_lt hi⟩ =
          d / (l.length : K)) ∧
      (∀ i (hi : i < l.length), l.get ⟨i, hi⟩ < s + d) := by
  have hnn : (0 : K) ≤ (samplingRate : K) * d := mul_nonneg (by positivity) hd.le
  have hfl : (0 : ℤ) ≤ ⌊(samplingRate : K) * d⌋ := Int.floor_nonneg.mpr hnn
  set n : ℕ := (⌊(samplingRate : K) * d⌋).toNat with hn
  have hcast : ((n : ℤ)) = ⌊(samplingRate : K) * d⌋ := Int.toNat_of_nonneg hfl
  have hKcast : ((⌊(samplingRate : K) * d⌋ : ℤ) : K) = (n : K) := by
    rw [← hcast]; push_cast; ring
  have hfun : (fun i : ℕ => s + (i : K) * (d / ((⌊(samplingRate : K) * d⌋ : ℤ) : K)))
      = (fun i : ℕ => s + (i : K) * (d / (n : K))) := by
    funext i; rw [hKcast]
  refine ⟨(List.range n).map (fun (i : ℕ) => s + (i : K) * (d / (n : K))), ?_,
      ?_, ?_, ?_, ?_, ?_⟩
  · rw [Time.get_array_nonneg hd.le]
    unfold sampleGrid
    rw [hfun]
  · rw [List.length_map, List.length_range]
    exact hcast
  · intro i hi
    rw [get_range_map, List.length_map, List.length_range]
  · intro h0
    rw [get_range_map]
    simp
  · intro i hi
    rw [get_range_map, get_range_map, List.length_map, List.length_range]
    push_cast
    ring
  · intro i hi
    rw [get_range_map]
    have hi' : i < n := by simpa using hi
    have hnK : (0 : K) < (n : K) := by
      exact_mod_cast Nat.pos_of_ne_zero (fun h => by simp [h] at hi')
    have hstep : (0 : K) < d / (n : K) := div_pos hd hnK
    have hiK : (i : K) < (n : K) := by exact_mod_cast hi'
    have hlt : (i : K) * (d / (n : K)) < (n : K) * (d / (n : K)) :=
      mul_lt_mul_of_pos_right hiK hstep
    have hnd : (n : K) * (d / (n : K)) = d := mul_div_cancel₀ d hnK.ne'
    linarith

/-- Witness for C1: concrete span `duration = 1/22050`, `start = 5` over `ℚ`. -/
theorem pysyn_C1_get_array_grid_witness :
    (0 : ℚ) < 1/22050 ∧
    ∃ l : List ℚ, (Time.mk (1/22050 : ℚ) 5).get_array = .ok l ∧
      (l.length : ℤ) = ⌊(samplingRate : ℚ) * (1/22050)⌋ ∧
      (∀ i (hi : i < l.length),
        l.get ⟨i, hi⟩ = 5 + (i : ℚ) * ((1/22050) / (l.length : ℚ))) ∧
      (∀ h0 : 0 < l.length, l.get ⟨0, h0⟩ = 5) ∧
      (∀ i (hi : i + 1 < l.length),
        l.get ⟨i + 1, hi⟩ - l.get ⟨i, Nat.lt_of_succ_lt hi⟩ =
          (1/22050) / (l.length : ℚ)) ∧
      (∀ i (hi : i < l.length), l.get ⟨i, hi⟩ < 5 + 1/22050) :=
  ⟨by norm_num, pysyn_C1_get_array_grid (1/22050 : ℚ) 5 (by norm_num)⟩

/-- **C8 (amended).** For a non-positive duration, `Time.get_array` fails
(with the `ValueError` that `np.linspace` raises on a negative sample count,
the code's realization of `InvalidDuration`) exactly when
`rate * duration ≤ -1`; otherwise — i.e. for zero duration and for negative
durations of magnitude below one sample period — it returns the empty
sequence without error. -/
theorem pysyn_C8_nonpositive_duration {K : Type} [LinearOrderedField K]
    [FloorRing K] (d s : K) (hd : d ≤ 0) :
    (Time.mk d s).get_array =
      if (samplingRate : K) * d ≤ -1 then .error .valueErrorNegativeSamples
      else .ok [] := by
  by_cases hx : (samplingRate : K) * d ≤ -1
  · rw [if_pos hx]
    have hxneg : (samplingRate : K) * d < 0 :=
      lt_of_le_of_lt hx (by norm_num)
    have hceil : ⌈(samplingRate : K) * d⌉ < 0 := by
      have h1 : ⌈(samplingRate : K) * d⌉ ≤ -1 :=
        Int.ceil_le.mpr (by exact_mod_cast hx)
      omega
    show linspaceNoEndpoint _ _ _ = _
    rw [show pyInt ((samplingRate : K) * (Time.mk d s).duration)
        = ⌈(samplingRate : K) * d⌉ from pyInt_of_neg hxneg]
    unfold linspaceNoEndpoint
    rw [if_pos hceil]
  · rw [if_neg hx]
    push_neg at hx
    have hnum : pyInt ((samplingRate : K) * d) = 0 := by
      rcases lt_or_eq_of_le hd with hdlt | hdeq
      · have hxneg : (samplingRate : K) * d < 0 := by
          have : (0 : K) < (samplingRate : K) := by norm_num [samplingRate]
          exact mul_neg_of_pos_of_neg this hdlt
        rw [pyInt_of_neg hxneg]
        have hle : ⌈(samplingRate : K) * d⌉ ≤ 0 :=
          Int.ceil_le.mpr (by exact_mod_cast hxneg.le)
        have hgt : (-1 : ℤ) < ⌈(samplingRate : K) * d⌉ :=
          Int.lt_ceil.mpr (by exact_mod_cast hx)
        omega
      · subst hdeq
        rw [mul_zero, pyInt_of_nonneg le_rfl, Int.floor_zero]
    show linspaceNoEndpoint _ _ _ = _
    rw [show pyInt ((samplingRate : K) * (Time.mk d s).duration) = 0 from hnum]
    unfold linspaceNoEndpoint
    norm_num

/-- Witness for C8 (amended): `duration = -1` errors, `duration = 0` gives
the empty array, over `ℚ`. -/
theorem pysyn_C8_nonpositive_duration_witness :
    ((-1 : ℚ) ≤ 0 ∧ (Time.mk (-1 : ℚ) 0).get_array =
      (if (samplingRate : ℚ) * (-1) ≤ -1
        then .error .valueErrorNegativeSamples else .ok [])) ∧
    ((0 : ℚ) ≤ 0 ∧ (Time.mk (0 : ℚ) 7).get_array =
      (if (samplingRate : ℚ) * 0 ≤ -1
        then .error .valueErrorNegativeSamples else .ok [])) :=
  ⟨⟨by norm_num, pysyn_C8_nonpositive_duration (-1 : ℚ) 0 (by norm_num)⟩,
   ⟨le_rfl, pysyn_C8_nonpositive_duration (0 : ℚ) 7 le_rfl⟩⟩

/-- **C8 counterexample.** The claim "a negative duration fails with
`InvalidDuration`" is false on the code: `duration = -1/100000` is negative,
yet `int(44100 * duration) = 0` (Python `int` truncates toward zero), so
`Time.get_array` returns the empty array and raises nothing. -/
theorem pysyn_C8_counterexample :
    (-1/100000 : ℚ) < 0 ∧
      (Time.mk (-1/100000 : ℚ) 0).get_array = .ok [] := by
  refine ⟨by norm_num, ?_⟩
  have h1 : pyInt ((samplingRate : ℚ) * (-1/100000)) = 0 := by
    rw [pyInt_of_neg (by norm_num [samplingRate])]
    norm_num [samplingRate]
  show linspaceNoEndpoint _ _ (pyInt ((samplingRate : ℚ) * (-1/100000))) = _
  rw [h1]
  unfold linspaceNoEndpoint
  simp

/-- `WaveGenerator`: `Callable[[npt.NDArray, float, float], npt.NDArray]`. -/
abbrev WaveGenerator (K : Type) : Type := List K → K → K → List K

/-- The module-level dict `_oscs : dict[str, WaveGenerator]`, as an
association list in insertion order. -/
abbrev Registry (K : Type) : Type := List (String × WaveGenerator K)

/-- `np.sign` on a real scalar: `-1`, `0` or `1`, with `sign(0) = 0`. -/
noncomputable def npSign (x : ℝ) : ℝ :=
  if x < 0 then -1 else if 0 < x then 1 else 0

/-- `_generate_sin`: `np.sin(2 * np.pi * freq * t + phase)` (elementwise). -/
noncomputable def generate_sin (t : List ℝ) (freq phase : ℝ) : List ℝ :=
  t.map (fun x => Real.sin (2 * Real.pi * freq * x + phase))

/-- `_generate_sqr`: `np.sign(np.sin(2 * np.pi * freq * t + phase))`. -/
noncomputable def generate_sqr (t : List ℝ) (freq phase : ℝ) : List ℝ :=
  t.map (fun x => npSign (Real.sin (2 * Real.pi * freq * x + phase)))

/-- `_generate_tri`: `2 * np.arcsin(np.sin(2 * np.pi * freq * t + phase)) / np.pi`. -/
noncomputable def generate_tri (t : List ℝ) (freq phase : ℝ) : List ℝ :=
  t.map (fun x => 2 * Real.arcsin (Real.sin (2 * Real.pi * freq * x + phase)) / Real.pi)

/-- `_generate_saw`: with `offset = phase / (2 * np.pi)`,
`2 * (freq * t + offset - np.floor(0.5 + freq * t + offset))`. -/
noncomputable def generate_saw (t : List ℝ) (freq phase : ℝ) : List ℝ :=
  t.map (fun x => 2 * (freq * x + phase / (2 * Real.pi) -
    (⌊(0.5 : ℝ) + freq * x + phase / (2 * Real.pi)⌋ : ℤ)))

/-- The initial contents of `_oscs`: the four built-in generators, in their
source order. -/
noncomputable def initOscs : Registry ℝ :=
  [("Sine", generate_sin), ("Square", generate_sqr),
   ("Triangle", generate_tri), ("Sawtooth", generate_saw)]

/-- `add_oscillator(name, wave_func)`: raises
`NameError(f'Wave name {name} already exists!')` when `name in _oscs`,
otherwise inserts at the end of the dict.  The registry is threaded as
explicit state; on the error path it is returned unchanged (the `raise`
happens before the mutation). -/
def add_oscillator {K : Type} (name : String) (wave_func : WaveGenerator K)
    (oscs : Registry K) : Except PyErr Unit × Registry K :=
  if (oscs.lookup name).isSome then (.error (.nameErrorDuplicate name), oscs)
  else (.ok ⟨⟩, oscs ++ [(name, wave_func)])

/-- The `Oscillator` class: slots `_wave` and `_wave_func`. -/
structure Oscillator (K : Type) where
  wave : String
  wave_func : WaveGenerator K

/-- `Oscillator.__init__(wave)`: raises
`NameError(f'Wave {wave} does not exist!')` when `_oscs.get(wave) is None`,
otherwise binds `_wave_func = _oscs[wave]` at construction time. -/
def Oscillator.make {K : Type} (oscs : Registry K) (wave : String) :
    Except PyErr (Oscillator K) :=
  match oscs.lookup wave with
  | none => .error (.nameErrorUnknown wave)
  | some f => .ok ⟨wave, f⟩

/-- `Oscillator.oscillate(t, freq, phase)`:
`self._wave_func(t.get_array(), freq, phase)`; an exception raised by
`get_array` propagates. -/
def Oscillator.oscillate {K : Type} [LinearOrderedField K] [FloorRing K]
    (o : Oscillator K) (t : Time K) (freq phase : K) : Except PyErr (List K) :=
  Except.map (fun arr => o.wave_func arr freq phase) t.get_array

/-- Spec formula for Sine: `sin(2π·freq·t + phase)` (pointwise in `t`). -/
noncomputable def specSine (x freq phase : ℝ) : ℝ :=
  Real.sin (2 * Real.pi * freq * x + phase)

/-- Spec formula for Square: `sign(sin(2π·freq·t + phase))` with
`sign(0) = 0` (Mathlib's `Real.sign`). -/
noncomputable def specSquare (x freq phase : ℝ) : ℝ :=
  Real.sign (Real.sin (2 * Real.pi * freq * x + phase))

/-- Spec formula for Triangle: `(2/π)·asin(sin(2π·freq·t + phase))`. -/
noncomputable def specTriangle (x freq phase : ℝ) : ℝ :=
  (2 / Real.pi) * Real.arcsin (Real.sin (2 * Real.pi * freq * x + phase))

/-- Spec formula for Sawtooth: with `offset = phase/(2π)`,
`2·(freq·t + offset − floor(0.5 + (freq·t + offset)))`. -/
noncomputable def specSawtooth (x freq phase : ℝ) : ℝ :=
  2 * (freq * x + phase / (2 * Real.pi) -
    (⌊(0.5 : ℝ) + (freq * x + phase / (2 * Real.pi))⌋ : ℤ))

lemma npSign_eq_sign (x : ℝ) : npSign x = Real.sign x := by
  unfold npSign Real.sign
  rfl

lemma npSign_cases (x : ℝ) : npSign x = -1 ∨ npSign x = 0 ∨ npSign x = 1 := by
  unfold npSign
  split_ifs <;> simp

/-- **C2.** Each built-in generator equals its spec reference formula
pointwise on the time array, for every frequency and phase (negative
frequency and arbitrary phase included), and its outputs lie in the stated
range: Sine in `[-1,1]`, Square in `{-1,0,1}` with `sign(0) = 0`, Triangle
in `[-1,1]`, Sawtooth in `[-1,1)`. -/
theorem pysyn_C2_builtin_generators (t : List ℝ) (freq phase : ℝ) :
    (generate_sin t freq phase = t.map (fun x => specSine x freq phase) ∧
      ∀ y ∈ generate_sin t freq phase, -1 ≤ y ∧ y ≤ 1) ∧
    (generate_sqr t freq phase = t.map (fun x => specSquare x freq phase) ∧
      (∀ y ∈ generate_sqr t freq phase, y = -1 ∨ y = 0 ∨ y = 1) ∧
      ∀ x : ℝ, npSign (Real.sin (2 * Real.pi * freq * x + phase)) = 0 ↔
        Real.sin (2 * Real.pi * freq * x + phase) = 0) ∧
    (generate_tri t freq phase = t.map (fun x => specTriangle x freq phase) ∧
      ∀ y ∈ generate_tri t freq phase, -1 ≤ y ∧ y ≤ 1) ∧
    (generate_saw t freq phase = t.map (fun x => specSawtooth x freq phase) ∧
      ∀ y ∈ generate_saw t freq phase, -1 ≤ y ∧ y < 1) := by
  refine ⟨⟨rfl, ?_⟩, ⟨?_, ?_, ?_⟩, ⟨?_, ?_⟩, ⟨?_, ?_⟩⟩
  · intro y hy
    obtain ⟨x, -, rfl⟩ := List.mem_map.mp hy
    exact ⟨Real.neg_one_le_sin _, Real.sin_le_one _⟩
  · unfold generate_sqr specSquare
    simp only [npSign_eq_sign]
  · intro y hy
    obtain ⟨x, -, rfl⟩ := List.mem_map.mp hy
    exact npSign_cases _
  · intro x
    unfold npSign
    split_ifs with h1 h2
    · exact iff_of_false (by norm_num) (ne_of_lt h1)
    · exact iff_of_false (by norm_num) (ne_of_gt h2)
    · exact iff_of_true rfl (le_antisymm (not_lt.mp h2) (not_lt.mp h1))
  · unfold generate_tri specTriangle
    congr 1
    funext x
    ring
  · intro y hy
    obtain ⟨x, -, rfl⟩ := List.mem_map.mp hy
    constructor
    · rw [le_div_iff₀ Real.pi_pos]
      have := Real.neg_pi_div_two_le_arcsin
        (Real.sin (2 * Real.pi * freq * x + phase))
      linarith
    · rw [div_le_one Real.pi_pos]
      have := Real.arcsin_le_pi_div_two
        (Real.sin (2 * Real.pi * freq * x + phase))
      linarith
  · unfold generate_saw specSawtooth
    congr 1
    funext x
    rw [add_assoc]
  · intro y hy
    obtain ⟨x, -, rfl⟩ := List.mem_map.mp hy
    have key : ∀ u : ℝ,
        -1 ≤ 2 * (u - (⌊(0.5 : ℝ) + u⌋ : ℤ)) ∧
          2 * (u - (⌊(0.5 : ℝ) + u⌋ : ℤ)) < 1 := by
      intro u
      have h1 : (0 : ℝ) ≤ Int.fract ((0.5 : ℝ) + u) := Int.fract_nonneg _
      have h2 : Int.fract ((0.5 : ℝ) + u) < 1 := Int.fract_lt_one _
      have h3 : Int.fract ((0.5 : ℝ) + u) =
          (0.5 : ℝ) + u - (⌊(0.5 : ℝ) + u⌋ : ℤ) := rfl
      constructor <;> [nlinarith; nlinarith]
    have harg : (0.5 : ℝ) + freq * x + phase / (2 * Real.pi)
        = (0.5 : ℝ) + (freq * x + phase / (2 * Real.pi)) := by ring
    rw [harg]
    exact key (freq * x + phase / (2 * Real.pi))

/-- A trivial generator (returns the time array), used as a concrete
custom `wave_func` in instantiations. -/
def idGen (K : Type) : WaveGenerator K := fun t _ _ => t

/-- **C6.** `add_oscillator` on a name already present fails with the
duplicate-name error and leaves the registry exactly as it was; on a fresh
name it succeeds, appends exactly that entry (the new name then resolves to
the new generator) and changes no existing entry.  In particular
registering over the built-in name `Sine` fails and leaves the built-in
registry, with `Sine` still bound to `_generate_sin`. -/
theorem pysyn_C6_add_oscillator {K : Type} (oscs : Registry K)
    (name : String) (g : WaveGenerator K) :
    ((oscs.lookup name).isSome →
      add_oscillator name g oscs = (.error (.nameErrorDuplicate name), oscs)) ∧
    (oscs.lookup name = none →
      add_oscillator name g oscs = (.ok ⟨⟩, oscs ++ [(name, g)]) ∧
      (oscs ++ [(name, g)]).lookup name = some g ∧
      ∀ other : String, oscs.lookup other ≠ none →
        (oscs ++ [(name, g)]).lookup other = oscs.lookup other) ∧
    (∀ g2 : WaveGenerator ℝ,
      add_oscillator "Sine" g2 initOscs
        = (.error (.nameErrorDuplicate "Sine"), initOscs) ∧
      initOscs.lookup "Sine" = some generate_sin) := by
  refine ⟨?_, ?_, ?_⟩
  · intro h
    unfold add_oscillator
    rw [if_pos h]
  · intro h
    refine ⟨?_, ?_, ?_⟩
    · unfold add_oscillator
      rw [h]
      rfl
    · rw [List.lookup_append, h, Option.none_or, List.lookup_cons_self]
    · intro other hother
      rw [List.lookup_append]
      cases hx : oscs.lookup other with
      | none => exact absurd hx hother
      | some v => simp
  · intro g2
    constructor
    · unfold add_oscillator
      rw [if_pos (by rfl)]
    · rfl

/-- Witness for C6: registering over the built-in name `Sine` fails and
leaves the registry as it was; registering a fresh name `Custom` appends
exactly that entry. -/
theorem pysyn_C6_add_oscillator_witness :
    add_oscillator "Sine" (idGen ℝ) initOscs
      = (.error (.nameErrorDuplicate "Sine"), initOscs) ∧
    add_oscillator "Custom" (idGen ℝ) initOscs
      = (.ok ⟨⟩, initOscs ++ [("Custom", idGen ℝ)]) :=
  ⟨((pysyn_C6_add_oscillator initOscs "Sine" (idGen ℝ)).2.2 (idGen ℝ)).1,
   ((pysyn_C6_add_oscillator initOscs "Custom" (idGen ℝ)).2.1 rfl).1⟩

/-- **C7.** `Oscillator.__init__` fails with the unknown-wave error if and
only if the name is absent from the registry at construction time; on
success the generator found in the registry is bound into the object, and
`oscillate` is a function of the constructed object alone (it applies the
bound generator to `t.get_array()`), so later registry changes cannot
affect it. -/
theorem pysyn_C7_construct {K : Type} [LinearOrderedField K] [FloorRing K]
    (oscs : Registry K) (wave : String) :
    (Oscillator.make oscs wave = .error (.nameErrorUnknown wave) ↔
      oscs.lookup wave = none) ∧
    (∀ f : WaveGenerator K, oscs.lookup wave = some f →
      Oscillator.make oscs wave = .ok ⟨wave, f⟩ ∧
      ∀ (t : Time K) (freq phase : K),
        (Oscillator.mk wave f).oscillate t freq phase
          = Except.map (fun arr => f arr freq phase) t.get_array) := by
  cases hx : oscs.lookup wave with
  | none =>
    refine ⟨⟨fun _ => rfl, fun _ => ?_⟩, fun f hf => absurd hf (by simp)⟩
    unfold Oscillator.make
    rw [hx]
  | some f0 =>
    refine ⟨⟨fun h => ?_, fun h => absurd h (by simp)⟩, fun f hf => ?_⟩
    · unfold Oscillator.make at h
      rw [hx] at h
      exact absurd h (by simp)
    · obtain rfl : f0 = f := by injection hf
      refine ⟨?_, fun t freq phase => rfl⟩
      unfold Oscillator.make
      rw [hx]

/-- Witness for C7: a one-entry registry over `ℚ`; constructing `"A"`
succeeds with the stored generator bound. -/
theorem pysyn_C7_construct_witness :
    Oscillator.make [("A", idGen ℚ)] "A" = .ok ⟨"A", idGen ℚ⟩ ∧
    ∀ (t : Time ℚ) (freq phase : ℚ),
      (Oscillator.mk "A" (idGen ℚ)).oscillate t freq phase
        = Except.map (fun arr => idGen ℚ arr freq phase) t.get_array :=
  (pysyn_C7_construct [("A", idGen ℚ)] "A").2 (idGen ℚ) rfl

/-- The `Track` class of `track.py`: slots `_osc`, `_steps`, `_filters`. -/
structure Track (K : Type) where
  osc : Oscillator K
  steps : List (String × String)
  filters : List Unit

/-- `Track.__init__(osc, steps)`: stores the oscillator and the step
sequence; `_filters` starts empty (a placeholder, `TODO` in the source). -/
def Track.init {K : Type} (osc : Oscillator K)
    (steps : List (String × String)) : Track K :=
  ⟨osc, steps, []⟩

/-- Modelled from the spec: the body of `Track.compile_` in
`src/pysyn/track.py` is an unimplemented stub (a docstring listing the
intended algorithm, then `...`), so the per-step compilation loop is
missing from the source.  Spec §4.6: for each step in order, resolve
`(frequency, duration)` — delegated to the external step sequencer,
modelled by the `resolve` argument — invoke
`oscillator.oscillate(TimeSpan(duration, running_start_offset), freq,
phase=0)`, and concatenate the buffers in step order, the running start
offset accumulating by each step's duration. -/
def Track.compileSteps {K : Type} [LinearOrderedField K] [FloorRing K]
    (osc : Oscillator K) (resolve : String × String → K × K) (off : K) :
    List (String × String) → Except PyErr (List K)
  | [] => .ok []
  | s :: rest => do
      let buf ← osc.oscillate (Time.mk (resolve s).2 off) (resolve s).1 0
      let tail ← Track.compileSteps osc resolve (off + (resolve s).2) rest
      pure (buf ++ tail)

/-- Modelled from the spec: `Track.compile()` (spec §4.6) compiles the
track's steps from a running start offset of `0`. -/
def Track.compile {K : Type} [LinearOrderedField K] [FloorRing K]
    (resolve : String × String → K × K) (tr : Track K) :
    Except PyErr (List K) :=
  Track.compileSteps tr.osc resolve 0 tr.steps

/-- **C4.** Compiling a track whose step sequence is empty yields the empty
buffer, not an error. -/
theorem pysyn_C4_compile_empty {K : Type} [LinearOrderedField K] [FloorRing K]
    (osc : Oscillator K) (resolve : String × String → K × K) :
    Track.compile resolve (Track.init osc []) = .ok [] :=
  rfl

/-- The `Mixer` class of `mixer.py`: dicts `_tracks` and `_levels`. -/
structure Mixer (K : Type) where
  tracks : List (String × Track K)
  levels : List (String × K)

/-- `Mixer.__init__`: both dicts start empty. -/
def Mixer.init {K : Type} : Mixer K := ⟨[], []⟩

/-- `Mixer.add_track(osc, steps, name)`:
`self._tracks.setdefault(name, Track(osc=osc, steps=steps))` and
`self._levels.setdefault(name, 1.)` — each dict inserts only if `name` is
not already one of its keys. -/
def Mixer.add_track {K : Type} [LinearOrderedField K] (m : Mixer K)
    (osc : Oscillator K) (steps : List (String × String)) (name : String) :
    Mixer K :=
  { tracks :=
      if (m.tracks.lookup name).isSome then m.tracks
      else m.tracks ++ [(name, Track.init osc steps)],
    levels :=
      if (m.levels.lookup name).isSome then m.levels
      else m.levels ++ [(name, 1)] }

/-- `Mixer.compile_`: iterates over the tracks calling each track's
(stubbed) `compile_`; it mutates neither `_tracks` nor `_levels`, so as a
transformer of the mixer state it is the identity. -/
def Mixer.compile_ {K : Type} (m : Mixer K) : Mixer K := m

/-- `Mixer.play`: a stub (`...`); leaves the mixer state unchanged. -/
def Mixer.play {K : Type} (m : Mixer K) : Mixer K := m

/-- `Mixer.compile_play`: `self.compile_()` then `self.play()`. -/
def Mixer.compile_play {K : Type} (m : Mixer K) : Mixer K :=
  m.compile_.play

/-- **C5.** `add_track` with a fresh name inserts the new track under that
name with level `1.0`; with a name already present it is a no-op: the
mixer state is exactly unchanged, so the stored track and level are
preserved. -/
theorem pysyn_C5_add_track {K : Type} [LinearOrderedField K] (m : Mixer K)
    (osc : Oscillator K) (steps : List (String × String)) (name : String) :
    (m.tracks.lookup name = none → m.levels.lookup name = none →
      m.add_track osc steps name =
        ⟨m.tracks ++ [(name, Track.init osc steps)],
          m.levels ++ [(name, 1)]⟩ ∧
      (m.add_track osc steps name).tracks.lookup name
        = some (Track.init osc steps) ∧
      (m.add_track osc steps name).levels.lookup name = some 1) ∧
    ((m.tracks.lookup name).isSome → (m.levels.lookup name).isSome →
      m.add_track osc steps name = m) := by
  constructor
  · intro ht hl
    have e : m.add_track osc steps name =
        ⟨m.tracks ++ [(name, Track.init osc steps)],
          m.levels ++ [(name, 1)]⟩ := by
      unfold Mixer.add_track
      rw [ht, hl]
      rfl
    refine ⟨e, ?_, ?_⟩
    · rw [e]
      rw [show (⟨m.tracks ++ [(name, Track.init osc steps)],
          m.levels ++ [(name, 1)]⟩ : Mixer K).tracks
        = m.tracks ++ [(name, Track.init osc steps)] from rfl]
      rw [List.lookup_append, ht, Option.none_or, List.lookup_cons_self]
    · rw [e]
      rw [show (⟨m.tracks ++ [(name, Track.init osc steps)],
          m.levels ++ [(name, 1)]⟩ : Mixer K).levels
        = m.levels ++ [(name, 1)] from rfl]
      rw [List.lookup_append, hl, Option.none_or, List.lookup_cons_self]
  · intro ht hl
    unfold Mixer.add_track
    rw [if_pos ht, if_pos hl]

/-- Witness for C5: starting from the empty mixer, adding `"a"` inserts the
track at level `1`; adding `"a"` again leaves the state unchanged. -/
theorem pysyn_C5_add_track_witness :
    ((Mixer.init : Mixer ℚ).add_track (Oscillator.mk "A" (idGen ℚ)) [] "a"
        = ⟨[("a", Track.init (Oscillator.mk "A" (idGen ℚ)) [])], [("a", 1)]⟩ ∧
      ((Mixer.init : Mixer ℚ).add_track
          (Oscillator.mk "A" (idGen ℚ)) [] "a").tracks.lookup "a"
        = some (Track.init (Oscillator.mk "A" (idGen ℚ)) []) ∧
      ((Mixer.init : Mixer ℚ).add_track
          (Oscillator.mk "A" (idGen ℚ)) [] "a").levels.lookup "a" = some 1) ∧
    (⟨[("a", Track.init (Oscillator.mk "A" (idGen ℚ)) [])],
        [("a", 1)]⟩ : Mixer ℚ).add_track (Oscillator.mk "B" (idGen ℚ)) [] "a"
      = ⟨[("a", Track.init (Oscillator.mk "A" (idGen ℚ)) [])], [("a", 1)]⟩ :=
  ⟨(pysyn_C5_add_track Mixer.init (Oscillator.mk "A" (idGen ℚ)) [] "a").1
      rfl rfl,
   (pysyn_C5_add_track ⟨[("a", Track.init (Oscillator.mk "A" (idGen ℚ)) [])],
      [("a", 1)]⟩ (Oscillator.mk "B" (idGen ℚ)) [] "a").2 rfl rfl⟩

lemma lookup_isSome_iff_mem_keys {α : Type} (l : List (String × α))
    (k : String) : (l.lookup k).isSome ↔ k ∈ l.map Prod.fst := by
  simp only [List.lookup_isSome_iff, beq_iff_eq, List.mem_map]
  constructor
  · rintro ⟨p, hp, rfl⟩
    exact ⟨p, hp, rfl⟩
  · rintro ⟨p, hp, rfl⟩
    exact ⟨p, hp, rfl⟩

/-- **C9.** The key set of `_tracks` equals the key set of `_levels`: they
start out equal (both empty), `add_track` preserves the equality, and
`compile_`, `play` and `compile_play` leave the mixer state unchanged
(hence also preserve it). -/
theorem pysyn_C9_key_sets {K : Type} [LinearOrderedField K] :
    ((Mixer.init : Mixer K).tracks.map Prod.fst
      = (Mixer.init : Mixer K).levels.map Prod.fst) ∧
    (∀ (m : Mixer K) (osc : Oscillator K) (steps : List (String × String))
        (name : String),
      m.tracks.map Prod.fst = m.levels.map Prod.fst →
      (m.add_track osc steps name).tracks.map Prod.fst
        = (m.add_track osc steps name).levels.map Prod.fst) ∧
    (∀ m : Mixer K, m.compile_ = m ∧ m.play = m ∧ m.compile_play = m) := by
  refine ⟨rfl, ?_, fun m => ⟨rfl, rfl, rfl⟩⟩
  intro m osc steps name hkeys
  have hiff : (m.tracks.lookup name).isSome ↔ (m.levels.lookup name).isSome := by
    rw [lookup_isSome_iff_mem_keys, lookup_isSome_iff_mem_keys, hkeys]
  unfold Mixer.add_track
  by_cases ht : (m.tracks.lookup name).isSome
  · rw [if_pos ht, if_pos (hiff.mp ht)]
    exact hkeys
  · rw [if_neg ht, if_neg (fun h => ht (hiff.mpr h))]
    simp only [List.map_append, List.map_cons, List.map_nil]
    rw [hkeys]

/-- Witness for C9: adding a track to the empty mixer keeps the key lists
of `_tracks` and `_levels` equal. -/
theorem pysyn_C9_key_sets_witness :
    ((Mixer.init : Mixer ℚ).add_track (Oscillator.mk "A" (idGen ℚ)) []
        "lead").tracks.map Prod.fst
      = ((Mixer.init : Mixer ℚ).add_track (Oscillator.mk "A" (idGen ℚ)) []
        "lead").levels.map Prod.fst :=
  (pysyn_C9_key_sets (K := ℚ)).2.1 Mixer.init
    (Oscillator.mk "A" (idGen ℚ)) [] "lead" rfl

lemma Oscillator.oscillate_nonneg {K : Type} [LinearOrderedField K]
    [FloorRing K] (o : Oscillator K) (d s freq phase : K) (hd : 0 ≤ d) :
    o.oscillate (Time.mk d s) freq phase
      = .ok (o.wave_func (sampleGrid d s) freq phase) := by
  unfold Oscillator.oscillate
  rw [Time.get_array_nonneg hd]
  rfl

lemma compileSteps_spec {K : Type} [LinearOrderedField K] [FloorRing K]
    (osc : Oscillator K) (resolve : String × String → K × K)
    (steps : List (String × String)) :
    ∀ off : K, (∀ s ∈ steps, 0 ≤ (resolve s).2) →
    ∃ bufs : List (List K),
      bufs.length = steps.length ∧
      Track.compileSteps osc resolve off steps = .ok bufs.join ∧
      ∀ i (hi : i < steps.length), ∃ b : List K,
        bufs[i]? = some b ∧
        osc.oscillate
            (Time.mk (resolve (steps.get ⟨i, hi⟩)).2
              (off + ((steps.take i).map (fun x => (resolve x).2)).sum))
            (resolve (steps.get ⟨i, hi⟩)).1 0 = .ok b := by
  induction steps with
  | nil =>
    intro off _
    exact ⟨[], rfl, rfl, fun i hi => absurd hi (by simp)⟩
  | cons s rest ih =>
    intro off hdur
    obtain ⟨bufs, hlen, hcomp, hstep⟩ :=
      ih (off + (resolve s).2)
        (fun x hx => hdur x (List.mem_cons_of_mem s hx))
    have hosc := Oscillator.oscillate_nonneg osc (resolve s).2 off
      (resolve s).1 0 (hdur s (List.mem_cons_self s rest))
    refine ⟨osc.wave_func (sampleGrid (resolve s).2 off) (resolve s).1 0
        :: bufs, by simp [hlen], ?_, ?_⟩
    · unfold Track.compileSteps
      rw [hosc, hcomp]
      rfl
    · intro i hi
      match i with
      | 0 =>
        refine ⟨osc.wave_func (sampleGrid (resolve s).2 off) (resolve s).1 0,
          List.getElem?_cons_zero, ?_⟩
        simp only [List.take_zero, List.map_nil, List.sum_nil, add_zero,
          List.get]
        exact hosc
      | j + 1 =>
        have hj : j < rest.length := by simpa using hi
        obtain ⟨b, hb1, hb2⟩ := hstep j hj
        refine ⟨b, by simpa using hb1, ?_⟩
        have hoff : off + (((s :: rest).take (j + 1)).map
              (fun x => (resolve x).2)).sum
            = (off + (resolve s).2)
              + ((rest.take j).map (fun x => (resolve x).2)).sum := by
          rw [List.take_succ_cons, List.map_cons, List.sum_cons]
          ring
        rw [show ((s :: rest).get ⟨j + 1, hi⟩) = rest.get ⟨j, hj⟩ from rfl,
          hoff]
        exact hb2

/-- **C3.** (Modelled from the spec; the source body of `Track.compile_` is
an unimplemented stub.)  For a track with a non-empty step sequence, whose
steps resolve to non-negative durations, `Track.compile` succeeds and
returns the concatenation, in step order, of one buffer per step; the
`i`-th buffer is exactly the oscillation of step `i` at phase `0` whose
start offset is the sum of the durations of the preceding steps (the
running offset accumulates, so the buffers tile `[0, Σ durations)` with no
overlap). -/
theorem pysyn_C3_track_compile {K : Type} [LinearOrderedField K]
    [FloorRing K] (osc : Oscillator K) (resolve : String × String → K × K)
    (steps : List (String × String)) (hne : steps ≠ [])
    (hdur : ∀ s ∈ steps, 0 ≤ (resolve s).2) :
    ∃ bufs : List (List K),
      bufs.length = steps.length ∧
      Track.compile resolve (Track.init osc steps) = .ok bufs.join ∧
      ∀ i (hi : i < steps.length), ∃ b : List K,
        bufs[i]? = some b ∧
        osc.oscillate
            (Time.mk (resolve (steps.get ⟨i, hi⟩)).2
              (((steps.take i).map (fun x => (resolve x).2)).sum))
            (resolve (steps.get ⟨i, hi⟩)).1 0 = .ok b := by
  obtain ⟨bufs, hlen, hcomp, hstep⟩ := compileSteps_spec osc resolve steps 0 hdur
  refine ⟨bufs, hlen, hcomp, ?_⟩
  intro i hi
  obtain ⟨b, hb1, hb2⟩ := hstep i hi
  rw [zero_add] at hb2
  exact ⟨b, hb1, hb2⟩

/-- Witness for C3: a one-step track over `ℚ` whose step resolves to
frequency `440` and duration `0`. -/
theorem pysyn_C3_track_compile_witness :
    ([("A4", "q")] : List (String × String)) ≠ [] ∧
    ∃ bufs : List (List ℚ),
      bufs.length = ([("A4", "q")] : List (String × String)).length ∧
      Track.compile (fun _ => ((440 : ℚ), (0 : ℚ)))
          (Track.init (Oscillator.mk "A" (idGen ℚ)) [("A4", "q")])
        = .ok bufs.join ∧
      ∀ i (hi : i < ([("A4", "q")] : List (String × String)).length),
        ∃ b : List ℚ,
        bufs[i]? = some b ∧
        (Oscillator.mk "A" (idGen ℚ)).oscillate
            (Time.mk ((fun _ => ((440 : ℚ), (0 : ℚ)))
                (([("A4", "q")] : List (String × String)).get ⟨i, hi⟩)).2
              (((([("A4", "q")] : List (String × String)).take i).map
                (fun x => ((fun _ => ((440 : ℚ), (0 : ℚ))) x).2)).sum))
            ((fun _ => ((440 : ℚ), (0 : ℚ)))
              (([("A4", "q")] : List (String × String)).get ⟨i, hi⟩)).1 0
          = .ok b :=
  ⟨by simp,
   pysyn_C3_track_compile (Oscillator.mk "A" (idGen ℚ))
     (fun _ => ((440 : ℚ), (0 : ℚ))) [("A4", "q")] (by simp)
     (fun x _ => le_refl 0)⟩

/-- `np.fft.fft(wave)`: the discrete Fourier transform
`X[k] = Σ_n wave[n]·exp(-2πi·k·n/N)` with `N = len(wave)`. -/
noncomputable def npFFT (wave : List ℝ) : List ℂ :=
  (List.range wave.length).map (fun (k : ℕ) =>
    ∑ n ∈ Finset.range wave.length,
      ((wave.getD n 0 : ℝ) : ℂ) * Complex.exp
        (-(2 * (Real.pi : ℂ) * Complex.I * (k : ℂ) * (n : ℂ))
          / (wave.length : ℂ)))

/-- `np.fft.fftfreq(n, d)`: `[0, 1, …, ⌈n/2⌉-1, -⌊n/2⌋, …, -1] / (n·d)`;
entry `k` equals `k/(n·d)` when `2k < n` and `(k-n)/(n·d)` otherwise. -/
def npFFTFreq (n : ℕ) (d : ℚ) : List ℚ :=
  (List.range n).map (fun (k : ℕ) =>
    (if 2 * k < n then (k : ℚ) else (k : ℚ) - (n : ℚ)) / ((n : ℚ) * d))

/-- `fourier_transform(wave)`: `fft_arr = np.fft.fft(wave)`;
`freq_arr = np.fft.fftfreq(len(fft_arr), 1 / Time.get_sampling_rate())`;
returns `(freq_arr, fft_arr)`. -/
noncomputable def fourier_transform (wave : List ℝ) : List ℚ × List ℂ :=
  (npFFTFreq (npFFT wave).length (1 / (samplingRate : ℚ)), npFFT wave)

/-- The call context of `fourier_transform`: the module-level state is the
oscillator registry plus the constant sampling rate; the function reads the
rate and mutates nothing, so threading the state (and the input buffer,
which numpy's `fft` does not modify) through the call returns both
unchanged. -/
noncomputable def fourier_transform_call (oscs : Registry ℝ)
    (wave : List ℝ) : (List ℚ × List ℂ) × Registry ℝ × List ℝ :=
  (fourier_transform wave, oscs, wave)

/-- **C10.** For every input buffer of length `N`, `fourier_transform`
returns a pair whose frequency-bin array and spectrum array both have
length exactly `N`, and the call leaves the input buffer and the global
state (registry, sampling rate) unchanged. -/
theorem pysyn_C10_fourier_transform (oscs : Registry ℝ) (wave : List ℝ) :
    (fourier_transform wave).1.length = wave.length ∧
    (fourier_transform wave).2.length = wave.length ∧
    (fourier_transform_call oscs wave).2 = (oscs, wave) := by
  refine ⟨?_, ?_, rfl⟩ <;> simp [fourier_transform, npFFT, npFFTFreq]
